import Mathlib

/-!
Verification of the log ingestion-and-preprocessing pipeline
(`LogCollector.ts` and `LogPreprocessor.ts`).

The TypeScript sources are shallowly embedded: text is `List Char`
(written `Str`), JavaScript `Date` values are `Option Int` (epoch
milliseconds, `none` standing for an Invalid Date / `NaN` time value, with
the time-zone fixed to UTC), and a stage that can raise an exception
returns `Option`.  Regular-expression operations of the source are
embedded as equivalent deterministic scanners over `List Char`, restricted
to the ASCII whitespace characters matched by `\s`.  Randomness and wall
clocks do not exist in the embedding: the simulated fetch of the collector
is modelled by passing the fetched batch as an argument, and `Date.now()`
is a `now` field threaded through the state.
-/

namespace LogPipeline

/-- Text, embedded as a list of characters. -/
abbrev Str := List Char

/-- Converts a Lean string literal to the embedded representation. -/
def str (s : String) : Str := s.data

/-- ASCII whitespace, as matched by the JavaScript `\s` class and `trim`. -/
def jsWs (c : Char) : Bool :=
  c = ' ' || c = '\t' || c = '\n' || c = '\r' || c = '\x0b' || c = '\x0c'

/-- JavaScript `String.prototype.trim`. -/
def trim (s : Str) : Str :=
  ((s.dropWhile jsWs).reverse.dropWhile jsWs).reverse

/-- Whether `pat` occurs at the head of `l`. -/
def startsWithStr : Str → Str → Bool
  | [], _ => true
  | _ :: _, [] => false
  | p :: ps, c :: cs => p = c && startsWithStr ps cs

/-- JavaScript `String.prototype.includes`: `pat` occurs somewhere in `l`. -/
def containsSub (pat : Str) : Str → Bool
  | [] => startsWithStr pat []
  | c :: cs => startsWithStr pat (c :: cs) || containsSub pat cs

/-- Replacement of every maximal whitespace run by a single space, the
effect of `replace(/\s+/g, ' ')`. -/
def collapseWs : Str → Str
  | [] => []
  | c :: rest =>
    if jsWs c then ' ' :: collapseWs (rest.dropWhile jsWs)
    else c :: collapseWs rest
termination_by l => l.length
decreasing_by
  · exact Nat.lt_succ_of_le (List.dropWhile_sublist _).length_le
  · exact Nat.lt_succ_self _

/-- JavaScript `split(/\s+/)`: separators are maximal whitespace runs, and
a leading or trailing run contributes an empty field. -/
def splitWsJs : Str → List Str :=
  go []
where
  go (acc : Str) : Str → List Str
    | [] => [acc.reverse]
    | c :: rest =>
      if jsWs c then acc.reverse :: go [] (rest.dropWhile jsWs)
      else go (c :: acc) rest
  termination_by l => l.length
  decreasing_by
    · exact Nat.lt_succ_of_le (List.dropWhile_sublist _).length_le
    · exact Nat.lt_succ_self _

/-- JavaScript `split('.')`. -/
def splitDot : Str → List Str
  | [] => [[]]
  | c :: rest =>
    if c = '.' then [] :: splitDot rest
    else
      match splitDot rest with
      | t :: ts => (c :: t) :: ts
      | [] => [[c]]

/-- JavaScript `Array.prototype.flatten('.')`. -/
def joinDots : List Str → Str
  | [] => []
  | [s] => s
  | s :: rest => s ++ '.' :: joinDots rest

/-- JavaScript `parseInt(s, 10)`: optional whitespace, optional sign, then
leading decimal digits; `none` models the `NaN` result. -/
def jsParseInt (s : Str) : Option Int :=
  let s1 := s.dropWhile jsWs
  let signAndRest : Int × Str :=
    match s1 with
    | '-' :: r => (-1, r)
    | '+' :: r => (1, r)
    | r => (1, r)
  let ds := signAndRest.2.takeWhile Char.isDigit
  if ds.isEmpty then none
  else some (signAndRest.1 * (ds.foldl (fun a c => a * 10 + (c.toNat - '0'.toNat)) 0 : Nat))

/-- JavaScript `Number.prototype.toString` on the result of `parseInt`:
an Invalid number prints as `NaN`. -/
def intToStr : Option Int → Str
  | none => str "NaN"
  | some n => (toString n).data

/-! ### Message cleaning (`cleanData` helpers) -/

/-- Effect of `replace(/\0/g, '')`. -/
def removeNullBytes (m : Str) : Str := m.filter (fun c => c ≠ '\x00')

/-- The character class `[\x00-\x08\x0B\x0C\x0E-\x1F\x7F]` of the
control-character removal step. -/
def isCtl (c : Char) : Bool :=
  ('\x00' ≤ c && c ≤ '\x08') || c = '\x0b' || c = '\x0c' ||
  ('\x0e' ≤ c && c ≤ '\x1f') || c = '\x7f'

/-- Effect of `replace(/[\x00-\x08\x0B\x0C\x0E-\x1F\x7F]/g, '')`. -/
def removeCtl (m : Str) : Str := m.filter (fun c => !isCtl c)

/-- Effect of `replace(/\r\n/g, '\n')`: a left-to-right scan replacing
each non-overlapping `\r\n` pair. -/
def replCRLF : Str → Str
  | [] => []
  | [c] => [c]
  | c1 :: c2 :: rest =>
    if c1 = '\r' ∧ c2 = '\n' then '\n' :: replCRLF rest
    else c1 :: replCRLF (c2 :: rest)

/-- Effect of `replace(/\r/g, '\n')`. -/
def replCR (m : Str) : Str := m.map (fun c => if c = '\r' then '\n' else c)

/-- Attempts the tail `\[[0-9;]*[a-zA-Z]` of the ANSI escape pattern at the
head of `l` (the leading `\x1B` has already been consumed); returns the rest
of the text after the match.  The greedy `[0-9;]*` run is deterministic
because a digit or semicolon can never satisfy the final `[a-zA-Z]`. -/
def ansiTailAt (l : Str) : Option Str :=
  match l with
  | '[' :: r =>
    match r.dropWhile (fun c => c.isDigit || c = ';') with
    | c :: r2 => if c.isAlpha then some r2 else none
    | [] => none
  | _ => none

/-- Effect of `replace(/\x1B\[[0-9;]*[a-zA-Z]/g, '')`. -/
def stripAnsi : Str → Str
  | [] => []
  | c :: rest =>
    if c = '\x1b' then
      match h : ansiTailAt rest with
      | some r2 => stripAnsi r2
      | none => c :: stripAnsi rest
    else c :: stripAnsi rest
termination_by l => l.length
decreasing_by
  · refine Nat.lt_succ_of_le (Nat.le_of_lt ?_)
    unfold ansiTailAt at h
    split at h
    · rename_i tl
      split at h
      · rename_i hc hr2 hdw
        split at h
        · have hr : hr2 = r2 := by injection h
          have h1 : (hc :: hr2).length ≤ tl.length := by
            rw [← hdw]; exact (List.dropWhile_sublist _).length_le
          subst hr
          simp only [List.length_cons] at h1 ⊢
          omega
        · exact absurd h (by simp)
      · exact absurd h (by simp)
    · exact absurd h (by simp)
  · exact Nat.lt_succ_self _
  · exact Nat.lt_succ_self _

/-- The whole message-cleaning chain of `cleanData`, in source order. -/
def cleanMsg (m : Str) : Str :=
  stripAnsi (replCR (replCRLF (removeCtl (removeNullBytes m))))

/-! ### Data model of `LogPreprocessor.ts` -/

/-- The `RawLog` interface.  `timestamp` is a `Date` (`none` models an
Invalid Date); `metadata` is an open key-value object (`none` models a
null/undefined metadata value, which `cleanData` leaves untouched). -/
structure RawLog where
  logId : Str
  timestamp : Option Int
  source : Str
  logLevel : Str
  message : Str
  metadata : Option (List (Str × Str))
  ipAddress : Str
  userId : Option Str
deriving DecidableEq, Repr

/-- The fixed-shape `features` record of a `ProcessedLog`. -/
structure Features where
  messageLength : Nat
  hasError : Bool
  hasWarning : Bool
  containsIP : Bool
  containsURL : Bool
  containsEmail : Bool
  wordCount : Nat
  specialCharCount : Nat
deriving DecidableEq, Repr

/-- The IP classification of `classifyIPAddress`. -/
inductive IpType where
  | publicIp
  | privateIp
  | localhost
deriving DecidableEq, Repr

/-- The time-of-day bucket of `getTimeOfDay`. -/
inductive TimeOfDay where
  | morning
  | afternoon
  | evening
  | night
deriving DecidableEq, Repr

/-- The `enrichedMetadata` record.  `dayOfWeek` is `none` when the
timestamp is invalid (`days[NaN]` is `undefined` in the source). -/
structure EnrichedMetadata where
  ipType : IpType
  timeOfDay : TimeOfDay
  dayOfWeek : Option Str
  isBusinessHours : Bool
deriving DecidableEq, Repr

/-- The `ProcessedLog` interface.  The source builds it by mutating a
`RawLog` in place across `enrichMetadata`, `extractFeatures` and the final
validation; fields not yet assigned at an intermediate point are
represented by the placeholder values installed by `enrichMetadata`. -/
structure ProcessedLog extends RawLog where
  normalizedMessage : Str
  tokens : List Str
  features : Features
  enrichedMetadata : EnrichedMetadata
  isValid : Bool
  processingTimestamp : Int
deriving DecidableEq, Repr

/-- The filter `type` discriminator: `incl` is `'include'`, `excl` is
`'exclude'`. -/
inductive FilterType where
  | incl
  | excl
deriving DecidableEq, Repr

/-- The `Filter` interface. -/
structure Filter where
  filterId : Str
  name : Str
  type : FilterType
  condition : Str
  isActive : Bool
deriving DecidableEq, Repr

/-- The `Transformation` interface.  An `operation` returning `none`
models a user-supplied function that throws. -/
structure Transformation where
  transformationId : Str
  name : Str
  description : Str
  operation : RawLog → Option RawLog
  isActive : Bool

/-- The `PreprocessingStats` record. -/
structure PreprocessingStats where
  totalProcessed : Nat
  validLogs : Nat
  invalidLogs : Nat
  filteredLogs : Nat
  transformedLogs : Nat
  averageProcessingTime : Rat
  lastProcessingTime : Int
deriving DecidableEq, Repr

/-- The mutable state of a `LogPreprocessor` instance.  `filters` and
`transformations` are the insertion-ordered `Map` registries; `now` models
the ambient clock during a call. -/
structure LogPreprocessor where
  filters : List Filter
  transformations : List Transformation
  stats : PreprocessingStats
  isActive : Bool
  now : Int

/-- The notifications emitted by the preprocessor. -/
inductive PreEvent where
  | logFiltered (log : RawLog)
  | logProcessed (log : ProcessedLog)
  | processingError (log : RawLog)
  | batchProcessed (total successful filtered : Nat)
  | filterAdded (f : Filter)
  | filterRemoved (filterId : Str)
  | transformationAdded (transformationId : Str)
  | transformationRemoved (transformationId : Str)

/-! ### Data cleaning -/

/-- The `sensitiveKeys` list of `sanitizeMetadata`, with the exact
character case of the source. -/
def sensitiveKeys : List Str :=
  [str "password", str "token", str "apiKey", str "secret",
   str "creditCard", str "ssn", str "apiSecret"]

/-- The `sanitizeMetadata` method: a value whose lowercased key contains
one of the sensitive terms is replaced by the redaction marker. -/
def sanitizeMetadata (m : List (Str × Str)) : List (Str × Str) :=
  m.map fun kv =>
    let lowerKey := kv.1.map Char.toLower
    if sensitiveKeys.any (fun s => containsSub s lowerKey) then
      (kv.1, str "[REDACTED]")
    else kv

/-- The `cleanData` method. -/
def cleanData (log : RawLog) : RawLog :=
  { log with
    message := cleanMsg log.message,
    metadata := log.metadata.map sanitizeMetadata }

/-! ### Normalization -/

/-- The `normalizeIPAddress` method. -/
def normalizeIPAddress (ip : Str) : Str :=
  joinDots ((splitDot ip).map (fun octet => intToStr (jsParseInt octet)))

/-- The source-name canonicalization of `normalizeFormat`:
`trim().toLowerCase().replace(/[^a-z0-9-_]/g, '_')`. -/
def normalizeSource (s : Str) : Str :=
  ((trim s).map Char.toLower).map fun c =>
    if ('a' ≤ c && c ≤ 'z') || ('0' ≤ c && c ≤ '9') || c = '-' || c = '_' then c
    else '_'

/-- The `normalizeFormat` method.  The `typeof timestamp === 'string'`
branch does not apply in the embedding, where timestamps are already
`Date` values. -/
def normalizeFormat (log : RawLog) : RawLog :=
  { log with
    logLevel := log.logLevel.map Char.toUpper,
    ipAddress := normalizeIPAddress log.ipAddress,
    source := normalizeSource log.source }

/-! ### Metadata enrichment -/

/-- JavaScript `Date.prototype.getHours`, in UTC; an invalid date yields
`NaN`, modelled as `none`. -/
def jsGetHours : Option Int → Option Int
  | none => none
  | some ms => some ((ms.fdiv 3600000).emod 24)

/-- JavaScript `Date.prototype.getDay`, in UTC (the epoch fell on a
Thursday, day index 4). -/
def jsGetDay : Option Int → Option Int
  | none => none
  | some ms => some ((ms.fdiv 86400000 + 4).emod 7)

/-- The `classifyIPAddress` method.  A `NaN` octet or an out-of-range
index compares unequal to every number, as in the source. -/
def classifyIPAddress (ip : Str) : IpType :=
  if ip = str "127.0.0.1" ∨ ip = str "::1" ∨ ip = str "localhost" then
    .localhost
  else
    let octets := (splitDot ip).map jsParseInt
    let o0 := (octets.get? 0).join
    let o1 := (octets.get? 1).join
    if o0 = some 10 then .privateIp
    else if o0 = some 172 ∧ (∃ v, o1 = some v ∧ 16 ≤ v ∧ v ≤ 31) then .privateIp
    else if o0 = some 192 ∧ o1 = some 168 then .privateIp
    else .publicIp

/-- The `getTimeOfDay` method; with a `NaN` hour every range check is
false and the result falls through to `night`. -/
def getTimeOfDay (ts : Option Int) : TimeOfDay :=
  match jsGetHours ts with
  | none => .night
  | some h =>
    if 6 ≤ h ∧ h < 12 then .morning
    else if 12 ≤ h ∧ h < 18 then .afternoon
    else if 18 ≤ h ∧ h < 22 then .evening
    else .night

/-- The `days` array of `getDayOfWeek`. -/
def daysOfWeek : List Str :=
  [str "Sunday", str "Monday", str "Tuesday", str "Wednesday",
   str "Thursday", str "Friday", str "Saturday"]

/-- The `getDayOfWeek` method; indexing with `NaN` yields `undefined`. -/
def getDayOfWeek (ts : Option Int) : Option Str :=
  match jsGetDay ts with
  | none => none
  | some d => daysOfWeek.get? d.toNat

/-- The `isBusinessHours` method. -/
def isBusinessHours (ts : Option Int) : Bool :=
  match jsGetHours ts, jsGetDay ts with
  | some h, some d => decide (1 ≤ d ∧ d ≤ 5 ∧ 9 ≤ h ∧ h < 17)
  | _, _ => false

/-- JavaScript `\w`, the word-character class `[A-Za-z0-9_]`. -/
def isWordChar (c : Char) : Bool := c.isAlpha || c.isDigit || c = '_'

/-- The `normalizeMessage` method: lowercase, `[^\w\s]` replaced by a
space, whitespace collapsed, trimmed. -/
def normalizeMessage (m : Str) : Str :=
  trim (collapseWs ((m.map Char.toLower).map fun c =>
    if isWordChar c || jsWs c then c else ' '))

/-- The `tokenizeMessage` method. -/
def tokenizeMessage (m : Str) : List Str :=
  (splitWsJs m).filter (fun token => token.length > 0)

/-- The `enrichMetadata` method.  It casts the raw log to a
`ProcessedLog`; the `features` and `isValid` fields, assigned by the later
stages, are installed here as placeholders. -/
def enrichMetadata (log : RawLog) (now : Int) : ProcessedLog :=
  let normalizedMessage := normalizeMessage log.message
  { log with
    enrichedMetadata :=
      { ipType := classifyIPAddress log.ipAddress,
        timeOfDay := getTimeOfDay log.timestamp,
        dayOfWeek := getDayOfWeek log.timestamp,
        isBusinessHours := isBusinessHours log.timestamp },
    processingTimestamp := now,
    normalizedMessage := normalizedMessage,
    tokens := tokenizeMessage normalizedMessage,
    features :=
      { messageLength := 0, hasError := false, hasWarning := false,
        containsIP := false, containsURL := false, containsEmail := false,
        wordCount := 0, specialCharCount := 0 },
    isValid := false }

/-! ### Feature extraction

The regular expressions of `extractFeatures` are embedded as equivalent
deterministic scanners: in each pattern every greedy quantifier is
followed by a character it can never match, so no backtracking case is
reachable and a maximal-munch scan decides the `test`. -/

/-- The test `/error|exception|fail/i`: a case-insensitive alternation of
literals, i.e. a substring test on the lowercased message. -/
def hasErrorKw (m : Str) : Bool :=
  let lc := m.map Char.toLower
  containsSub (str "error") lc || containsSub (str "exception") lc ||
    containsSub (str "fail") lc

/-- The test `/warn|warning|caution/i`. -/
def hasWarningKw (m : Str) : Bool :=
  let lc := m.map Char.toLower
  containsSub (str "warn") lc || containsSub (str "warning") lc ||
    containsSub (str "caution") lc

/-- Whether position `oc` (the character before the scan point, `none` at
the ends) is on the non-word side of a `\b` boundary. -/
def nonWord : Option Char → Bool
  | none => true
  | some c => !isWordChar c

/-- Splits off the maximal leading digit run. -/
def digitRun (l : Str) : Nat × Str :=
  ((l.takeWhile Char.isDigit).length, l.dropWhile Char.isDigit)

/-- One `\d{1,3}\.` group of the IPv4 pattern.  A run of more than three
digits cannot match: after backtracking the next character is still a
digit, never `'.'`. -/
def ipQuad (l : Str) : Option Str :=
  let nr := digitRun l
  if 1 ≤ nr.1 ∧ nr.1 ≤ 3 then
    match nr.2 with
    | '.' :: r2 => some r2
    | _ => none
  else none

/-- The final `\d{1,3}\b` of the IPv4 pattern. -/
def ipLastQuad (l : Str) : Bool :=
  let nr := digitRun l
  decide (1 ≤ nr.1 ∧ nr.1 ≤ 3) && nonWord nr.2.head?

/-- An attempt of `(?:\d{1,3}\.){3}\d{1,3}\b` at the head of `l`. -/
def ipMatchAt (l : Str) : Bool :=
  match ipQuad l with
  | none => false
  | some r1 =>
    match ipQuad r1 with
    | none => false
    | some r2 =>
      match ipQuad r2 with
      | none => false
      | some r3 => ipLastQuad r3

/-- The scan of `/\b(?:\d{1,3}\.){3}\d{1,3}\b/.test`; `prev` is the
character before the current position. -/
def containsIPAux : Option Char → Str → Bool
  | _, [] => false
  | prev, c :: rest =>
    (nonWord prev && c.isDigit && ipMatchAt (c :: rest)) ||
      containsIPAux (some c) rest

/-- The test `/\b(?:\d{1,3}\.){3}\d{1,3}\b/`. -/
def containsIPStr (m : Str) : Bool := containsIPAux none m

/-- Whether the head of `l` is a non-whitespace character, the `[^\s]+`
requirement after `//`. -/
def nonWsHead (l : Str) : Bool :=
  match l.head? with
  | some c => !jsWs c
  | none => false

/-- An attempt of `https?:\/\/[^\s]+` at the head of `l`. -/
def urlAt (l : Str) : Bool :=
  (startsWithStr (str "https://") l && nonWsHead (l.drop 8)) ||
    (startsWithStr (str "http://") l && nonWsHead (l.drop 7))

/-- The test `/https?:\/\/[^\s]+/`. -/
def containsURLStr : Str → Bool
  | [] => false
  | c :: rest => urlAt (c :: rest) || containsURLStr rest

/-- The local-part character class `[a-zA-Z0-9._%+-]` of the email
pattern. -/
def isLocalChar (c : Char) : Bool :=
  c.isAlpha || c.isDigit || c = '.' || c = '_' || c = '%' || c = '+' || c = '-'

/-- The domain character class `[a-zA-Z0-9.-]`. -/
def isDomainChar (c : Char) : Bool :=
  c.isAlpha || c.isDigit || c = '.' || c = '-'

/-- The trailing `[a-zA-Z]{2,}` requirement: at least two letters follow.
-/
def twoLetters : Str → Bool
  | a :: b :: _ => a.isAlpha && b.isAlpha
  | _ => false

/-- Whether some split of `l` into `[a-zA-Z0-9.-]*` then `\.[a-zA-Z]{2,}`
exists; together with one already-consumed domain character this decides
`[a-zA-Z0-9.-]+\.[a-zA-Z]{2,}` with full backtracking. -/
def emailDom : Str → Bool
  | [] => false
  | c :: rest => (c = '.' && twoLetters rest) || (isDomainChar c && emailDom rest)

/-- The part of the email pattern after `@`. -/
def emailAfterAt : Str → Bool
  | [] => false
  | c :: rest => isDomainChar c && emailDom rest

/-- The scan of the email test: an existence check needs one local-part
character directly before the `@`. -/
def containsEmailAux : Str → Bool
  | c :: '@' :: rest =>
    (isLocalChar c && emailAfterAt rest) || containsEmailAux ('@' :: rest)
  | _ :: rest => containsEmailAux rest
  | [] => false

/-- The test `/[a-zA-Z0-9._%+-]+@[a-zA-Z0-9.-]+\.[a-zA-Z]{2,}/`. -/
def containsEmailStr (m : Str) : Bool := containsEmailAux m

/-- The `extractFeatures` method, computed on the post-transform message.
-/
def extractFeatures (log : ProcessedLog) : ProcessedLog :=
  let m := log.message
  { log with
    features :=
      { messageLength := m.length,
        hasError := hasErrorKw m,
        hasWarning := hasWarningKw m,
        containsIP := containsIPStr m,
        containsURL := containsURLStr m,
        containsEmail := containsEmailStr m,
        wordCount := (splitWsJs m).length,
        specialCharCount :=
          m.countP (fun c => !(c.isAlpha || c.isDigit || jsWs c)) } }

/-! ### Validation -/

/-- The `Object.values(LogLevel)` list. -/
def validLevels : List Str :=
  [str "DEBUG", str "INFO", str "WARNING", str "ERROR", str "CRITICAL"]

/-- The `validateLog` method. -/
def validateLog (log : ProcessedLog) : Bool :=
  if log.message = [] ∨ trim log.message = [] then false
  else if log.source = [] ∨ trim log.source = [] then false
  else if log.timestamp = none then false
  else if log.logLevel ∉ validLevels then false
  else if log.message.length < 3 ∨ log.message.length > 10000 then false
  else true

/-! ### Filters -/

/-- The scan of `condition.match(/key\s*===\s*['"]([^'"]+)['"]/)` at one
position: the literal `key`, optional whitespace, `===`, optional
whitespace, a quote, a maximal nonempty run of non-quote characters (the
capture), and a closing quote (either kind, as in the source pattern). -/
def matchCondAt (key : Str) (l : Str) : Option Str :=
  if startsWithStr key l then
    match (l.drop key.length).dropWhile jsWs with
    | '=' :: '=' :: '=' :: l2 =>
      match l2.dropWhile jsWs with
      | q :: l3 =>
        if q = '\'' ∨ q = '"' then
          let v := l3.takeWhile (fun c => !(c = '\'' || c = '"'))
          match l3.dropWhile (fun c => !(c = '\'' || c = '"')) with
          | _ :: _ => if v = [] then none else some v
          | [] => none
        else none
      | [] => none
    | _ => none
  else none

/-- The first match of the condition pattern anywhere in the string. -/
def matchCond (key : Str) : Str → Option Str
  | [] => matchCondAt key []
  | c :: cs =>
    match matchCondAt key (c :: cs) with
    | some v => some v
    | none => matchCond key cs

/-- The `logLevel` half of `evaluateFilterCondition`, reached when the
`source` branch does not return. -/
def evalLevelPart (c : Str) (log : RawLog) : Bool :=
  if containsSub (str "logLevel") c then
    match matchCond (str "logLevel") c with
    | some v => log.logLevel = v
    | none => true
  else true

/-- The `evaluateFilterCondition` method.  Its `try`/`catch` wrapper is
dead in the embedding, where every step is total. -/
def evaluateFilterCondition (f : Filter) (log : RawLog) : Bool :=
  let c := f.condition
  if containsSub (str "source") c then
    match matchCond (str "source") c with
    | some v => log.source = v
    | none => evalLevelPart c log
  else evalLevelPart c log

/-- The `applyFilters` method: the first active filter that vetoes the
record makes it return `false`. -/
def applyFilters : List Filter → RawLog → Bool
  | [], _ => true
  | f :: fs, log =>
    if !f.isActive then applyFilters fs log
    else
      let shouldInclude := evaluateFilterCondition f log
      if f.type = FilterType.incl ∧ shouldInclude = false then false
      else if f.type = FilterType.excl ∧ shouldInclude = true then false
      else applyFilters fs log

/-- Whether one filter vetoes a record, the per-filter reject condition of
`applyFilters`. -/
def filterVetoes (f : Filter) (log : RawLog) : Prop :=
  f.isActive = true ∧
    ((f.type = FilterType.incl ∧ evaluateFilterCondition f log = false) ∨
     (f.type = FilterType.excl ∧ evaluateFilterCondition f log = true))

instance (f : Filter) (log : RawLog) : Decidable (filterVetoes f log) := by
  unfold filterVetoes; infer_instance

/-! ### Transformations and the main pipeline -/

/-- The `applyTransformations` method: a fold over the active
transformations in registration order, incrementing `transformedLogs`
after each applied operation.  An operation that raises (`none`) aborts
the fold; the increments already made persist, as the source mutates
`this.stats` in place. -/
def applyTransformations (stats : PreprocessingStats)
    (ts : List Transformation) (log : RawLog) :
    PreprocessingStats × Option RawLog :=
  match ts with
  | [] => (stats, some log)
  | t :: rest =>
    if t.isActive then
      match t.operation log with
      | some log2 =>
        applyTransformations
          { stats with transformedLogs := stats.transformedLogs + 1 } rest log2
      | none => (stats, none)
    else applyTransformations stats rest log

/-- The incremental-mean update `updateAverageProcessingTime`. -/
def updateAverageProcessingTime (stats : PreprocessingStats)
    (newTime : Rat) : PreprocessingStats :=
  let total : Rat := stats.totalProcessed
  { stats with
    averageProcessingTime :=
      (stats.averageProcessingTime * (total - 1) + newTime) / total }

/-- The `preprocessLog` method.  The result triple is the returned value,
the updated instance state, and the notifications emitted during the
call.  The `catch` branch of the source is the `none` case of the
transformation fold: the error is swallowed, `invalidLogs` is bumped and a
`processingError` notification carries the original log.  Processing time
is 0 in the embedding (both `Date.now()` reads happen at the modelled
instant `now`). -/
def preprocessLog (pp : LogPreprocessor) (log : RawLog) :
    Option ProcessedLog × LogPreprocessor × List PreEvent :=
  if !pp.isActive then (none, pp, [])
  else if !applyFilters pp.filters log then
    (none,
     { pp with stats := { pp.stats with filteredLogs := pp.stats.filteredLogs + 1 } },
     [.logFiltered log])
  else
    let cleanedLog := cleanData log
    let tRes := applyTransformations pp.stats pp.transformations cleanedLog
    match tRes with
    | (stats1, none) =>
      (none,
       { pp with stats := { stats1 with invalidLogs := stats1.invalidLogs + 1 } },
       [.processingError log])
    | (stats1, some transformedLog) =>
      let normalizedLog := normalizeFormat transformedLog
      let enrichedLog := enrichMetadata normalizedLog pp.now
      let featuredLog := extractFeatures enrichedLog
      let processedLog := { featuredLog with isValid := validateLog featuredLog }
      let stats2 := { stats1 with totalProcessed := stats1.totalProcessed + 1 }
      let stats3 :=
        if processedLog.isValid then { stats2 with validLogs := stats2.validLogs + 1 }
        else { stats2 with invalidLogs := stats2.invalidLogs + 1 }
      let stats4 := updateAverageProcessingTime stats3 0
      let stats5 := { stats4 with lastProcessingTime := pp.now }
      (some processedLog, { pp with stats := stats5 }, [.logProcessed processedLog])

/-- The per-record loop of `batchPreprocess`. -/
def batchPreprocessAux (pp : LogPreprocessor) :
    List RawLog → List ProcessedLog × LogPreprocessor × List PreEvent
  | [] => ([], pp, [])
  | log :: rest =>
    let r := preprocessLog pp log
    let rs := batchPreprocessAux r.2.1 rest
    (match r.1 with
     | some p => p :: rs.1
     | none => rs.1,
     rs.2.1, r.2.2 ++ rs.2.2)

/-- The `batchPreprocess` method, with its final `batchProcessed`
notification. -/
def batchPreprocess (pp : LogPreprocessor) (logs : List RawLog) :
    List ProcessedLog × LogPreprocessor × List PreEvent :=
  let r := batchPreprocessAux pp logs
  (r.1, r.2.1,
   r.2.2 ++ [.batchProcessed logs.length r.1.length (logs.length - r.1.length)])

/-- The three default transformations installed by the constructor, in
registration order; their random UUID ids are modelled by fixed distinct
ids. -/
def defaultTransformations : List Transformation :=
  [{ transformationId := str "t-trim",
     name := str "Trim Whitespace",
     description := str "Removes leading and trailing whitespace from log messages",
     operation := fun log => some { log with message := trim log.message },
     isActive := true },
   { transformationId := str "t-lowersource",
     name := str "Normalize Source",
     description := str "Converts source name to lowercase",
     operation := fun log => some { log with source := log.source.map Char.toLower },
     isActive := true },
   { transformationId := str "t-dedupspaces",
     name := str "Remove Duplicate Spaces",
     description := str "Replaces multiple spaces with single space",
     operation := fun log => some { log with message := collapseWs log.message },
     isActive := true }]

/-- The stats record installed by the constructor (`lastProcessingTime`
taken as instant 0). -/
def initialStats : PreprocessingStats :=
  { totalProcessed := 0, validLogs := 0, invalidLogs := 0, filteredLogs := 0,
    transformedLogs := 0, averageProcessingTime := 0, lastProcessingTime := 0 }

/-- A freshly constructed `LogPreprocessor`. -/
def newPreprocessor : LogPreprocessor :=
  { filters := [], transformations := defaultTransformations,
    stats := initialStats, isActive := true, now := 0 }

/-! ### Data model of `LogCollector.ts` -/

/-- The `Log` class of the collector. -/
structure Log where
  logId : Str
  timestamp : Option Int
  source : Str
  logLevel : Str
  message : Str
  metadata : List (Str × Str)
  ipAddress : Str
  userId : Option Str
  isProcessed : Bool
deriving DecidableEq, Repr

/-- The `Log` constructor; `metadata` and `ipAddress` default to `{}` and
`'unknown'` as in the source, `logId` and the creation instant are passed
explicitly in place of `uuidv4()` and `new Date()`. -/
def mkLog (logId : Str) (now : Option Int) (source logLevel message : Str)
    (metadata : List (Str × Str) := []) (ipAddress : Str := str "unknown") :
    Log :=
  { logId := logId, timestamp := now, source := source, logLevel := logLevel,
    message := message, metadata := metadata, ipAddress := ipAddress,
    userId := (metadata.lookup (str "userId")), isProcessed := false }

/-- The `LogSource` interface; `sourceType` is kept as text. -/
structure LogSource where
  sourceId : Str
  sourceName : Str
  sourceType : Str
  endpoint : Str
  isActive : Bool
  pollInterval : Nat
deriving DecidableEq, Repr

/-- Insertion-ordered `Map.set`: an existing key is overwritten in place,
a new key is appended. -/
def mapSet {α : Type} (k : Str) (v : α) : List (Str × α) → List (Str × α)
  | [] => [(k, v)]
  | (k', v') :: rest =>
    if k' = k then (k, v) :: rest else (k', v') :: mapSet k v rest

/-- `Map.get`. -/
def mapGet {α : Type} (k : Str) : List (Str × α) → Option α
  | [] => none
  | (k', v') :: rest => if k' = k then some v' else mapGet k rest

/-- `Map.delete`. -/
def mapDelete {α : Type} (k : Str) : List (Str × α) → List (Str × α)
  | [] => []
  | (k', v') :: rest =>
    if k' = k then rest else (k', v') :: mapDelete k rest

/-- The state of a `LogCollector` instance.  Besides the fields of the
class it tracks the scheduler: `liveTimers` lists every `setInterval`
handle that was created and never passed to `clearInterval`, tagged with
the source it polls, and `nextHandle` is a fresh-handle counter.
`collectionIntervals` is the `Map` the class keeps, which stores only the
most recently created handle per source id. -/
structure LogCollector where
  sources : List (Str × LogSource)
  isActive : Bool
  collectionIntervals : List (Str × Nat)
  liveTimers : List (Nat × Str)
  nextHandle : Nat
  collectedLogs : List Log
  totalLogsCollected : Nat
  errorCount : Nat

/-- The `MAX_BUFFER_SIZE` constant. -/
def MAX_BUFFER_SIZE : Nat := 1000

/-- A freshly constructed `LogCollector`. -/
def newCollector : LogCollector :=
  { sources := [], isActive := false, collectionIntervals := [],
    liveTimers := [], nextHandle := 0, collectedLogs := [],
    totalLogsCollected := 0, errorCount := 0 }

/-- The `startSourceCollection` method: a fresh `setInterval` handle is
created and stored in the map, unconditionally. -/
def startSourceCollection (st : LogCollector) (src : LogSource) : LogCollector :=
  { st with
    collectionIntervals := mapSet src.sourceId st.nextHandle st.collectionIntervals,
    liveTimers := st.liveTimers ++ [(st.nextHandle, src.sourceId)],
    nextHandle := st.nextHandle + 1 }

/-- The `stopSourceCollection` method: the handle stored in the map, if
any, is cleared and the map entry removed. -/
def stopSourceCollection (st : LogCollector) (sourceId : Str) : LogCollector :=
  match mapGet sourceId st.collectionIntervals with
  | some h =>
    { st with
      liveTimers := st.liveTimers.filter (fun t => t.1 ≠ h),
      collectionIntervals := mapDelete sourceId st.collectionIntervals }
  | none => st

/-- The `addSource` method. -/
def addSource (st : LogCollector) (src : LogSource) : Bool × LogCollector :=
  if (mapGet src.sourceId st.sources).isSome then (false, st)
  else
    let st1 := { st with sources := mapSet src.sourceId src st.sources }
    (true,
     if st1.isActive ∧ src.isActive then startSourceCollection st1 src else st1)

/-- The `removeSource` method. -/
def removeSource (st : LogCollector) (sourceId : Str) : Bool × LogCollector :=
  match mapGet sourceId st.sources with
  | none => (false, st)
  | some _ =>
    let st1 := stopSourceCollection st sourceId
    (true, { st1 with sources := mapDelete sourceId st1.sources })

/-- The `startCollection` method: sets the active flag and schedules every
active source, with no check for an already existing timer. -/
def startCollection (st : LogCollector) : LogCollector :=
  let st1 := { st with isActive := true }
  st1.sources.foldl
    (fun acc kv => if kv.2.isActive then startSourceCollection acc kv.2 else acc)
    st1

/-- The `stopCollection` method: every handle held in the map is cleared
and the map emptied.  A live handle that was overwritten in the map is not
reachable here. -/
def stopCollection (st : LogCollector) : LogCollector :=
  { st with
    isActive := false,
    liveTimers :=
      st.liveTimers.filter
        (fun t => !(st.collectionIntervals.any (fun kv => kv.2 = t.1))),
    collectionIntervals := [] }

/-- The `validateLogFormat` method. -/
def validateLogFormat (log : Log) : Bool :=
  decide (trim log.message ≠ []) && decide (trim log.source ≠ [])

/-- The buffer-and-stats effect of one `collectFromSource` tick.  The
random `fetchLogsFromSource` batch is passed in as `newLogs`. -/
def collectFromSource (st : LogCollector) (newLogs : List Log) : LogCollector :=
  let validLogs := newLogs.filter validateLogFormat
  let buf1 := st.collectedLogs ++ validLogs
  let buf2 :=
    if buf1.length > MAX_BUFFER_SIZE then buf1.drop (buf1.length - MAX_BUFFER_SIZE)
    else buf1
  { st with
    collectedLogs := buf2,
    totalLogsCollected := st.totalLogsCollected + validLogs.length }

/-- The `collectLogs` method: returns the buffer and resets it. -/
def collectLogs (st : LogCollector) : List Log × LogCollector :=
  (st.collectedLogs, { st with collectedLogs := [] })

/-- An observable collector action: one fetch tick for some source (with
the records its feed produced) or one drain by the consumer. -/
inductive CollOp where
  | fetch (batch : List Log)
  | drain

/-- Runs a sequence of ticks and drains, collecting each drain's result.
-/
def runCollector (st : LogCollector) : List CollOp → List (List Log) × LogCollector
  | [] => ([], st)
  | CollOp.fetch b :: rest => runCollector (collectFromSource st b) rest
  | CollOp.drain :: rest =>
    let d := collectLogs st
    let r := runCollector d.2 rest
    (d.1 :: r.1, r.2)

/-- The records appended over a run: each fetched batch after the
collector's format validation. -/
def appendedRecords : List CollOp → List (List Log)
  | [] => []
  | CollOp.fetch b :: rest => b.filter validateLogFormat :: appendedRecords rest
  | CollOp.drain :: rest => appendedRecords rest

/-- The number of live timers polling one source. -/
def liveTimersFor (st : LogCollector) (sourceId : Str) : Nat :=
  (st.liveTimers.filter (fun t => t.2 = sourceId)).length

/-! ### Concrete scenarios used by the witnesses and counterexamples -/

/-- Composition of the enrichment and feature stages, the shape in which
a record reaches `validateLog`. -/
def toProcessed (r : RawLog) (now : Int) : ProcessedLog :=
  extractFeatures (enrichMetadata r now)

/-- An active exclude-filter on `source === 'debugsrc'`. -/
def exclDebugSrc : Filter :=
  { filterId := str "f1", name := str "Exclude debugsrc", type := .excl,
    condition := str "source === 'debugsrc'", isActive := true }

/-- An active include-filter on `source === 'nginx'`. -/
def nginxFilter : Filter :=
  { filterId := str "f-nginx", name := str "Only nginx", type := .incl,
    condition := str "source === 'nginx'", isActive := true }

/-- An active exclude-filter whose condition matches no recognized
pattern. -/
def oddExclFilter : Filter :=
  { filterId := str "f-odd", name := str "Odd condition", type := .excl,
    condition := str "severity > 3", isActive := true }

/-- An active include-filter with the same unrecognized condition. -/
def oddInclFilter : Filter :=
  { oddExclFilter with filterId := str "f-odd2", type := .incl }

/-- A well-formed raw record. -/
def rGood : RawLog :=
  { logId := str "r3", timestamp := some 1700000000000, source := str "app",
    logLevel := str "INFO", message := str "hello", metadata := some [],
    ipAddress := str "10.0.0.5", userId := none }

/-- A raw record that the exclude-filter of the C1 scenario vetoes. -/
def rVetoed : RawLog :=
  { rGood with
    logId := str "r1", source := str "debugsrc",
    message := str "debug noise" }

/-- A raw record with an empty message. -/
def rEmpty : RawLog :=
  { rGood with logId := str "r2", message := str "" }

/-- The preprocessor of the end-to-end scenario: freshly constructed, with
the one exclude-filter registered. -/
def ppC1 : LogPreprocessor := { newPreprocessor with filters := [exclDebugSrc] }

/-- A transformation whose operation raises on every input. -/
def throwingTransformation : Transformation :=
  { transformationId := str "t-throw", name := str "Throwing",
    description := str "Models a user operation that throws",
    operation := fun _ => none, isActive := true }

/-- A preprocessor holding only the throwing transformation. -/
def ppThrowing : LogPreprocessor :=
  { newPreprocessor with transformations := [throwingTransformation] }

/-- A registered log source for the collector scenarios. -/
def srcS1 : LogSource :=
  { sourceId := str "s1", sourceName := str "app",
    sourceType := str "APPLICATION", endpoint := str "http://e",
    isActive := true, pollInterval := 1000 }

/-- The collector right after `addSource(srcS1)`. -/
def stAfterAdd : LogCollector := (addSource newCollector srcS1).2

/-- The collector after one `startCollection()`. -/
def stOnce : LogCollector := startCollection stAfterAdd

/-- The collector after calling `startCollection()` a second time without
an intervening stop. -/
def stTwice : LogCollector := startCollection stOnce

/-- A minimal valid collector record. -/
def clog (id : String) : Log :=
  mkLog (str id) (some 0) (str "app") (str "INFO") (str "msg")

/-- A raw record carrying the collector's default `ipAddress` value
`'unknown'` (see the `Log` constructor). -/
def rUnknownIp : RawLog := { rGood with ipAddress := str "unknown" }

/-- A concrete run for the drain witness: fetch two records, drain, fetch
a third, drain again. -/
def opsW : List CollOp :=
  [CollOp.fetch [clog "a", clog "b"], CollOp.drain,
   CollOp.fetch [clog "c"], CollOp.drain]

/-! ## Theorems -/

/-- C2: the claim that `startCollection` is idempotent fails on the code:
with one registered active source, a second `startCollection` calls
`setInterval` again and overwrites the stored handle, so after the second
call the source is polled by two live timers while the map remembers only
the newer one.  This theorem evaluates the collector at that failing
input. -/
theorem startCollection_double_schedules :
    liveTimersFor stOnce (str "s1") = 1 ∧
    liveTimersFor stTwice (str "s1") = 2 ∧
    stTwice.collectionIntervals = [(str "s1", 1)] :=
  ⟨rfl, rfl, rfl⟩

/-- C3: `validateLog` returns `false` exactly when the message is empty or
blank, the source is empty or blank, the timestamp is unparseable, the
log level is not one of the five recognized values, or the message length
lies outside `[3, 10000]`; in particular a two-character message is
invalid and a well-formed five-character message is valid. -/
theorem nil_or_trim_nil (m : Str) : (m = [] ∨ trim m = []) ↔ trim m = [] := by
  constructor
  · rintro (h | h)
    · rw [h]; rfl
    · exact h
  · exact Or.inr

theorem validateLog_false_char (log : ProcessedLog) :
    validateLog log = false ↔
      (trim log.message = [] ∨ trim log.source = [] ∨ log.timestamp = none ∨
       log.logLevel ∉ validLevels ∨ log.message.length < 3 ∨
       log.message.length > 10000) := by
  unfold validateLog
  simp only [nil_or_trim_nil]
  by_cases k1 : trim log.message = [] <;>
    by_cases k2 : trim log.source = [] <;>
    by_cases k3 : log.timestamp = none <;>
    by_cases k4 : log.logLevel ∈ validLevels <;>
    by_cases k5 : log.message.length < 3 ∨ log.message.length > 10000 <;>
    simp [k1, k2, k3, k4, k5]

theorem validateLog_false_iff (log : ProcessedLog) :
    (validateLog log = false ↔
      (trim log.message = [] ∨ trim log.source = [] ∨ log.timestamp = none ∨
       log.logLevel ∉ validLevels ∨ log.message.length < 3 ∨
       log.message.length > 10000)) ∧
    validateLog (toProcessed { rGood with message := str "ab" } 0) = false ∧
    validateLog (toProcessed rGood 0) = true :=
  ⟨validateLog_false_char log, by decide, by decide⟩

theorem collectFromSource_spec (st : LogCollector) (newLogs : List Log) :
    (collectFromSource st newLogs).collectedLogs.length ≤ MAX_BUFFER_SIZE ∧
    (collectFromSource st newLogs).collectedLogs =
      (st.collectedLogs ++ newLogs.filter validateLogFormat).drop
        ((st.collectedLogs ++ newLogs.filter validateLogFormat).length -
          MAX_BUFFER_SIZE) := by
  have hgoal : (collectFromSource st newLogs).collectedLogs =
      if (st.collectedLogs ++ newLogs.filter validateLogFormat).length >
          MAX_BUFFER_SIZE then
        (st.collectedLogs ++ newLogs.filter validateLogFormat).drop
          ((st.collectedLogs ++ newLogs.filter validateLogFormat).length -
            MAX_BUFFER_SIZE)
      else st.collectedLogs ++ newLogs.filter validateLogFormat := rfl
  rw [hgoal]
  by_cases h :
      (st.collectedLogs ++ newLogs.filter validateLogFormat).length >
        MAX_BUFFER_SIZE
  · rw [if_pos h]
    refine ⟨?_, rfl⟩
    rw [List.length_drop]
    omega
  · rw [if_neg h]
    have h0 :
        (st.collectedLogs ++ newLogs.filter validateLogFormat).length -
          MAX_BUFFER_SIZE = 0 := by omega
    rw [h0, List.drop_zero]
    exact ⟨by omega, rfl⟩

/-- C4: one fetch cycle leaves the buffer at no more than
`MAX_BUFFER_SIZE` records, and the new buffer is exactly the suffix of the
old buffer followed by the accepted records, with precisely the oldest
excess dropped (FIFO prefix-trim). -/
theorem collectFromSource_bounded (st : LogCollector) (newLogs : List Log) :
    (collectFromSource st newLogs).collectedLogs.length ≤ MAX_BUFFER_SIZE ∧
    (collectFromSource st newLogs).collectedLogs =
      (st.collectedLogs ++ newLogs.filter validateLogFormat).drop
        ((st.collectedLogs ++ newLogs.filter validateLogFormat).length -
          MAX_BUFFER_SIZE) :=
  collectFromSource_spec st newLogs

theorem ne_of_head (a b : Str) (h : a.head? ≠ b.head?) : a ≠ b :=
  fun e => h (e ▸ rfl)

theorem splitDot_no_dot (p : Str) (hp : '.' ∉ p) : splitDot p = [p] := by
  induction p with
  | nil => rfl
  | cons c rest ih =>
    have hc : c ≠ '.' := fun h => hp (h ▸ List.mem_cons_self _ _)
    have hrest : '.' ∉ rest := fun h => hp (List.mem_cons_of_mem _ h)
    simp only [splitDot, if_neg hc, ih hrest]

theorem splitDot_append (p : Str) (hp : '.' ∉ p) (rest : Str) :
    splitDot (p ++ '.' :: rest) = p :: splitDot rest := by
  induction p with
  | nil => simp [splitDot]
  | cons c tl ih =>
    have hc : c ≠ '.' := fun h => hp (h ▸ List.mem_cons_self _ _)
    have htl : '.' ∉ tl := fun h => hp (List.mem_cons_of_mem _ h)
    simp only [List.cons_append, splitDot, if_neg hc, List.append_eq, ih htl]

theorem head_nan_dot (t : Str) : (str "NaN" ++ '.' :: t).head? = some 'N' := rfl

theorem classify_nan_join (l : List Str) :
    classifyIPAddress (joinDots (l.map (fun _ => str "NaN"))) = .publicIp := by
  match l with
  | [] => decide
  | [x] =>
    show classifyIPAddress (str "NaN") = IpType.publicIp
    decide
  | x :: y :: ys =>
    have hj : joinDots ((x :: y :: ys).map (fun _ => str "NaN")) =
        str "NaN" ++ '.' :: joinDots ((y :: ys).map (fun _ => str "NaN")) := rfl
    rw [hj]
    have hsplit : splitDot (str "NaN" ++ '.' ::
        joinDots ((y :: ys).map (fun _ => str "NaN"))) =
        str "NaN" :: splitDot (joinDots ((y :: ys).map (fun _ => str "NaN"))) :=
      splitDot_append _ (by decide) _
    unfold classifyIPAddress
    rw [if_neg]
    · rw [hsplit]
      rfl
    · rintro (h | h | h) <;>
        exact absurd (congrArg List.head? h) (by rw [head_nan_dot]; decide)

/-- C10: for every record whose `ipAddress` has no parseable leading
digits in any dot-separated part, `normalizeFormat` rewrites the address
to one `NaN` per part instead of failing, and `classifyIPAddress` then
classifies the rewritten address as `public`; in particular the
collector's default address `'unknown'` becomes `'NaN'`, which is
classified `public`. -/
theorem normalizeIP_nan (log : RawLog)
    (h : ∀ part ∈ splitDot log.ipAddress, jsParseInt part = none) :
    (normalizeFormat log).ipAddress =
      joinDots ((splitDot log.ipAddress).map (fun _ => str "NaN")) ∧
    classifyIPAddress (normalizeFormat log).ipAddress = .publicIp ∧
    normalizeIPAddress (str "unknown") = str "NaN" ∧
    classifyIPAddress (str "NaN") = .publicIp := by
  have heq : (normalizeFormat log).ipAddress =
      joinDots ((splitDot log.ipAddress).map (fun _ => str "NaN")) := by
    show normalizeIPAddress log.ipAddress = _
    unfold normalizeIPAddress
    congr 1
    exact List.map_congr_left fun part hp => by rw [h part hp]; rfl
  refine ⟨heq, ?_, by decide, by decide⟩
  rw [heq]
  exact classify_nan_join _

/-- Witness for C10 at the collector's default address `'unknown'`. -/
theorem normalizeIP_nan_witness :
    (normalizeFormat rUnknownIp).ipAddress = str "NaN" ∧
    classifyIPAddress (normalizeFormat rUnknownIp).ipAddress = .publicIp := by
  have h := normalizeIP_nan rUnknownIp (by decide)
  exact ⟨by rw [h.1]; rfl, h.2.1⟩

theorem applyFilters_true_iff (fs : List Filter) (log : RawLog) :
    applyFilters fs log = true ↔ ∀ f ∈ fs, ¬ filterVetoes f log := by
  induction fs with
  | nil => simp [applyFilters]
  | cons g gs ih =>
    simp only [applyFilters, List.mem_cons, forall_eq_or_imp]
    by_cases hg : g.isActive = true
    · rw [if_neg (by simp [hg])]
      by_cases h1 : g.type = FilterType.incl ∧ evaluateFilterCondition g log = false
      · rw [if_pos h1]
        simp [filterVetoes, hg, h1]
      · rw [if_neg h1]
        by_cases h2 : g.type = FilterType.excl ∧ evaluateFilterCondition g log = true
        · rw [if_pos h2]
          simp [filterVetoes, hg, h2]
        · rw [if_neg h2]
          rw [ih]
          simp [filterVetoes, hg, h1, h2]
    · rw [if_pos (by simp [Bool.not_eq_true] at hg ⊢; exact hg)]
      rw [ih]
      simp [filterVetoes, hg]

theorem applyFilters_false_iff (fs : List Filter) (log : RawLog) :
    applyFilters fs log = false ↔ ∃ f ∈ fs, filterVetoes f log := by
  rw [← Bool.not_eq_true, applyFilters_true_iff]
  push_neg
  rfl

theorem evalCond_nginx (f : Filter) (log : RawLog)
    (h : f.condition = str "source === 'nginx'") :
    evaluateFilterCondition f log = decide (log.source = str "nginx") := by
  unfold evaluateFilterCondition
  rw [h]
  rfl

/-- C7: the filter chain is an order-independent conjunction of vetoes: a
record is rejected exactly when some active include-filter's predicate is
false on it or some active exclude-filter's predicate is true on it;
permuting the registered filters never changes the outcome; and an active
include-filter on `source === 'nginx'` rejects every record whose source
is not `nginx`, whatever the other filters are. -/
theorem filter_chain_veto (fs : List Filter) (log : RawLog) :
    (applyFilters fs log = false ↔
      ∃ f ∈ fs, f.isActive = true ∧
        ((f.type = FilterType.incl ∧ evaluateFilterCondition f log = false) ∨
         (f.type = FilterType.excl ∧ evaluateFilterCondition f log = true))) ∧
    (∀ fs2, fs.Perm fs2 → applyFilters fs log = applyFilters fs2 log) ∧
    (∀ f ∈ fs, f.isActive = true → f.type = FilterType.incl →
      f.condition = str "source === 'nginx'" → log.source ≠ str "nginx" →
      applyFilters fs log = false) := by
  refine ⟨applyFilters_false_iff fs log, ?_, ?_⟩
  · intro fs2 hperm
    refine Bool.eq_iff_iff.mpr ?_
    rw [applyFilters_true_iff, applyFilters_true_iff]
    constructor
    · intro hall f hf
      exact hall f (hperm.mem_iff.mpr hf)
    · intro hall f hf
      exact hall f (hperm.mem_iff.mp hf)
  · intro f hf hact htype hcond hsrc
    refine (applyFilters_false_iff fs log).mpr ⟨f, hf, hact, Or.inl ⟨htype, ?_⟩⟩
    rw [evalCond_nginx f log hcond]
    exact decide_eq_false hsrc

/-- Witness for C7: the single active nginx include-filter rejects the
record with source `app`, and reversing a two-filter registry preserves
the outcome. -/
theorem filter_chain_veto_witness :
    applyFilters [nginxFilter] rGood = false ∧
    applyFilters [nginxFilter, oddExclFilter] rGood =
      applyFilters [oddExclFilter, nginxFilter] rGood := by
  constructor
  · exact (filter_chain_veto [nginxFilter] rGood).2.2 nginxFilter
      (List.mem_singleton_self _) rfl rfl rfl (by decide)
  · exact (filter_chain_veto [nginxFilter, oddExclFilter] rGood).2.1
      [oddExclFilter, nginxFilter] (List.Perm.swap _ _ _)

/-- C9: a filter whose condition matches neither the `source === '…'` nor
the `logLevel === '…'` pattern evaluates to `true` on every record, so as
an active include-filter it never rejects a record, while as an active
exclude-filter it rejects every record. -/
theorem unrecognized_condition_filters (f : Filter) (log : RawLog)
    (hs : matchCond (str "source") f.condition = none)
    (hl : matchCond (str "logLevel") f.condition = none) :
    evaluateFilterCondition f log = true ∧
    (∀ fs, f ∈ fs → f.isActive = true → f.type = FilterType.excl →
      applyFilters fs log = false) ∧
    (f.isActive = true → f.type = FilterType.incl →
      applyFilters [f] log = true) := by
  have hev : evaluateFilterCondition f log = true := by
    unfold evaluateFilterCondition evalLevelPart
    simp only [hs, hl]
    split
    · split
      · rfl
      · rfl
    · split
      · rfl
      · rfl
  refine ⟨hev, ?_, ?_⟩
  · intro fs hmem hact htype
    exact (applyFilters_false_iff fs log).mpr
      ⟨f, hmem, hact, Or.inr ⟨htype, hev⟩⟩
  · intro hact htype
    refine (applyFilters_true_iff [f] log).mpr ?_
    intro g hg
    rw [List.mem_singleton.mp hg]
    rintro ⟨-, (⟨-, hfalse⟩ | ⟨hexcl, -⟩)⟩
    · rw [hev] at hfalse
      exact Bool.noConfusion hfalse
    · rw [htype] at hexcl
      cases hexcl

theorem mem_replCRLF (l : Str) (c : Char) (h : c ∈ replCRLF l) :
    c ∈ l ∨ c = '\n' := by
  induction l using replCRLF.induct with
  | case1 => simp [replCRLF] at h
  | case2 a =>
    simp only [replCRLF] at h
    exact Or.inl h
  | case3 c1 c2 rest hc ih =>
    rw [replCRLF, if_pos hc] at h
    rcases List.mem_cons.mp h with rfl | h2
    · exact Or.inr rfl
    · rcases ih h2 with h3 | h3
      · exact Or.inl (List.mem_cons_of_mem _ (List.mem_cons_of_mem _ h3))
      · exact Or.inr h3
  | case4 c1 c2 rest hc ih =>
    rw [replCRLF, if_neg hc] at h
    rcases List.mem_cons.mp h with rfl | h2
    · exact Or.inl (List.mem_cons_self _ _)
    · rcases ih h2 with h3 | h3
      · exact Or.inl (List.mem_cons_of_mem _ h3)
      · exact Or.inr h3

theorem replCRLF_eq_self (l : Str) (h : '\r' ∉ l) : replCRLF l = l := by
  induction l using replCRLF.induct with
  | case1 => rfl
  | case2 a => rfl
  | case3 c1 c2 rest hc ih =>
    refine absurd ?_ h
    rw [← hc.1]
    exact List.mem_cons_self _ _
  | case4 c1 c2 rest hc ih =>
    rw [replCRLF, if_neg hc, ih fun hm => h (List.mem_cons_of_mem _ hm)]

theorem mem_replCR (l : Str) (c : Char) (h : c ∈ replCR l) :
    c ∈ l ∨ c = '\n' := by
  unfold replCR at h
  rcases List.mem_map.mp h with ⟨a, ha, rfl⟩
  by_cases hc : a = '\r'
  · rw [if_pos hc]
    exact Or.inr rfl
  · rw [if_neg hc]
    exact Or.inl ha

theorem not_cr_replCR (l : Str) (c : Char) (h : c ∈ replCR l) : c ≠ '\r' := by
  unfold replCR at h
  rcases List.mem_map.mp h with ⟨a, ha, rfl⟩
  by_cases hc : a = '\r'
  · rw [if_pos hc]
    decide
  · rw [if_neg hc]
    exact hc

theorem replCR_eq_self (l : Str) (h : '\r' ∉ l) : replCR l = l := by
  unfold replCR
  have hcg : ∀ a ∈ l, (if a = '\r' then '\n' else a) = id a := by
    intro a ha
    have hne : a ≠ '\r' := by
      intro e
      rw [e] at ha
      exact h ha
    rw [if_neg hne]
    rfl
  rw [List.map_congr_left hcg, List.map_id]

theorem ansiTailAt_subset (l r : Str) (h : ansiTailAt l = some r) :
    ∀ c ∈ r, c ∈ l := by
  unfold ansiTailAt at h
  split at h
  · rename_i tl
    split at h
    · rename_i c0 r2 hdw
      split at h
      · have hr : r2 = r := by injection h
        subst hr
        intro c hc
        have hsuf : c0 :: r2 <:+ tl := hdw ▸ List.dropWhile_suffix _
        exact List.mem_cons_of_mem _ (hsuf.subset (List.mem_cons_of_mem _ hc))
      · exact absurd h (by simp)
    · exact absurd h (by simp)
  · exact absurd h (by simp)

theorem stripAnsi_nil : stripAnsi [] = [] := by
  rw [stripAnsi]

theorem stripAnsi_cons_esc_some (rest r2 : Str) (hs : ansiTailAt rest = some r2) :
    stripAnsi ('\x1b' :: rest) = stripAnsi r2 := by
  rw [stripAnsi, if_pos rfl]
  split
  · rename_i r2x hx
    rw [hs] at hx
    injection hx with hx
    rw [hx]
  · rename_i hx
    rw [hs] at hx
    cases hx

theorem stripAnsi_cons_esc_none (rest : Str) (hs : ansiTailAt rest = none) :
    stripAnsi ('\x1b' :: rest) = '\x1b' :: stripAnsi rest := by
  rw [stripAnsi, if_pos rfl]
  split
  · rename_i r2x hx
    rw [hs] at hx
    cases hx
  · rfl

theorem stripAnsi_cons_ne (c : Char) (rest : Str) (hc : ¬ c = '\x1b') :
    stripAnsi (c :: rest) = c :: stripAnsi rest := by
  rw [stripAnsi, if_neg hc]

theorem mem_stripAnsi (l : Str) (c : Char) (h : c ∈ stripAnsi l) : c ∈ l := by
  induction l using stripAnsi.induct with
  | case1 =>
    rw [stripAnsi_nil] at h
    cases h
  | case2 rest r2 hansi ih =>
    rw [stripAnsi_cons_esc_some rest r2 hansi] at h
    exact List.mem_cons_of_mem _ (ansiTailAt_subset rest r2 hansi c (ih h))
  | case3 rest hansi ih =>
    rw [stripAnsi_cons_esc_none rest hansi] at h
    rcases List.mem_cons.mp h with rfl | h2
    · exact List.mem_cons_self _ _
    · exact List.mem_cons_of_mem _ (ih h2)
  | case4 c1 rest hc ih =>
    rw [stripAnsi_cons_ne c1 rest hc] at h
    rcases List.mem_cons.mp h with rfl | h2
    · exact List.mem_cons_self _ _
    · exact List.mem_cons_of_mem _ (ih h2)

theorem stripAnsi_eq_self (l : Str) (h : '\x1b' ∉ l) : stripAnsi l = l := by
  induction l with
  | nil => exact stripAnsi_nil
  | cons c rest ih =>
    have hc : ¬ c = '\x1b' := fun e => h (e ▸ List.mem_cons_self _ _)
    rw [stripAnsi_cons_ne c rest hc, ih fun hm => h (List.mem_cons_of_mem _ hm)]

theorem cleanMsg_clean (m : Str) :
    ∀ c ∈ cleanMsg m, isCtl c = false ∧ c ≠ '\r' := by
  intro c hc
  unfold cleanMsg at hc
  have h1 : c ∈ replCR (replCRLF (removeCtl (removeNullBytes m))) :=
    mem_stripAnsi _ _ hc
  have hnr : c ≠ '\r' := not_cr_replCR _ _ h1
  refine ⟨?_, hnr⟩
  rcases mem_replCR _ _ h1 with h2 | h2
  · rcases mem_replCRLF _ _ h2 with h3 | h3
    · have h4 := (List.mem_filter.mp h3).2
      simpa using h4
    · rw [h3]
      decide
  · rw [h2]
    decide

theorem cleanMsg_eq_self (y : Str) (hy : ∀ c ∈ y, isCtl c = false ∧ c ≠ '\r') :
    cleanMsg y = y := by
  have h0 : removeNullBytes y = y := by
    apply List.filter_eq_self.mpr
    intro a ha
    have hictl := (hy a ha).1
    have ha0 : a ≠ '\x00' := by
      intro e
      rw [e] at hictl
      exact absurd hictl (by decide)
    exact decide_eq_true ha0
  have h1 : removeCtl y = y := by
    apply List.filter_eq_self.mpr
    intro a ha
    rw [(hy a ha).1]
    rfl
  have h2 : replCRLF y = y :=
    replCRLF_eq_self y fun hr => absurd rfl (hy '\r' hr).2
  have h3 : replCR y = y :=
    replCR_eq_self y fun hr => absurd rfl (hy '\r' hr).2
  have h4 : stripAnsi y = y :=
    stripAnsi_eq_self y fun he => absurd (hy _ he).1 (by decide)
  unfold cleanMsg
  rw [h0, h1, h2, h3, h4]

theorem cleanMsg_idem (m : Str) : cleanMsg (cleanMsg m) = cleanMsg m :=
  cleanMsg_eq_self (cleanMsg m) (cleanMsg_clean m)

theorem cleanMsg_nil : cleanMsg [] = [] :=
  cleanMsg_eq_self [] (by simp)

theorem sanitizeMetadata_idem (m : List (Str × Str)) :
    sanitizeMetadata (sanitizeMetadata m) = sanitizeMetadata m := by
  unfold sanitizeMetadata
  rw [List.map_map]
  apply List.map_congr_left
  intro kv _
  by_cases h : sensitiveKeys.any
      (fun s => containsSub s (kv.1.map Char.toLower)) = true
  · simp only [Function.comp_apply, if_pos h]
  · simp only [Function.comp_apply, if_neg h, if_neg h]

/-- C8: `cleanData` is idempotent: one pass leaves no null byte, control
character, carriage return or ANSI escape introducer in the message, and
redaction keys are unchanged, so a second pass returns the same record. -/
theorem cleanData_idempotent (log : RawLog) :
    cleanData (cleanData log) = cleanData log := by
  unfold cleanData
  simp only [RawLog.mk.injEq, cleanMsg_idem, Option.map_map, true_and,
    and_true, eq_self_iff_true]
  cases log.metadata with
  | none => rfl
  | some m => exact congrArg some (sanitizeMetadata_idem m)

/-- Witness for C9 on the unrecognized condition `severity > 3`. -/
theorem unrecognized_condition_filters_witness :
    evaluateFilterCondition oddExclFilter rGood = true ∧
    applyFilters [oddExclFilter] rGood = false ∧
    applyFilters [oddInclFilter] rGood = true := by
  refine ⟨(unrecognized_condition_filters oddExclFilter rGood (by decide)
      (by decide)).1, ?_, ?_⟩
  · exact (unrecognized_condition_filters oddExclFilter rGood (by decide)
      (by decide)).2.1 [oddExclFilter] (List.mem_singleton_self _) rfl rfl
  · exact (unrecognized_condition_filters oddInclFilter rGood (by decide)
      (by decide)).2.2 rfl rfl

theorem char_eq_of_toNat_eq {c d : Char} (h : c.toNat = d.toNat) : c = d := by
  have h2 := congrArg Char.ofNat h
  rwa [Char.ofNat_toNat, Char.ofNat_toNat] at h2

theorem char_toNat_inj (c d : Char) : c = d ↔ c.toNat = d.toNat :=
  ⟨fun h => by rw [h], char_eq_of_toNat_eq⟩

theorem toNat_ofNat_valid (n : Nat) (h : n < 0xd800) :
    (Char.ofNat n).toNat = n := by
  unfold Char.ofNat
  rw [dif_pos (Or.inl h : n.isValidChar)]
  rfl

theorem jsWs_toNat (c : Char) :
    jsWs c = decide (c.toNat = 32 ∨ c.toNat = 9 ∨ c.toNat = 10 ∨
      c.toNat = 13 ∨ c.toNat = 11 ∨ c.toNat = 12) := by
  unfold jsWs
  simp only [Bool.decide_or]
  rw [decide_eq_decide.mpr (char_toNat_inj c ' '),
    decide_eq_decide.mpr (char_toNat_inj c '\t'),
    decide_eq_decide.mpr (char_toNat_inj c '\n'),
    decide_eq_decide.mpr (char_toNat_inj c '\r'),
    decide_eq_decide.mpr (char_toNat_inj c '\x0b'),
    decide_eq_decide.mpr (char_toNat_inj c '\x0c')]
  simp only [Bool.or_assoc]
  rfl

theorem jsWs_toLower (c : Char) : jsWs (Char.toLower c) = jsWs c := by
  simp only [Char.toLower]
  split
  · rename_i h
    have hv : (Char.ofNat (c.toNat + 32)).toNat = c.toNat + 32 :=
      toNat_ofNat_valid _ (by omega)
    rw [jsWs_toNat, jsWs_toNat, hv]
    have e1 : ¬(c.toNat + 32 = 32 ∨ c.toNat + 32 = 9 ∨ c.toNat + 32 = 10 ∨
        c.toNat + 32 = 13 ∨ c.toNat + 32 = 11 ∨ c.toNat + 32 = 12) := by omega
    have e2 : ¬(c.toNat = 32 ∨ c.toNat = 9 ∨ c.toNat = 10 ∨
        c.toNat = 13 ∨ c.toNat = 11 ∨ c.toNat = 12) := by omega
    rw [decide_eq_false e1, decide_eq_false e2]
  · rfl

theorem dropWhile_eq_self_of_none (p : Char → Bool) (l : Str)
    (h : ∀ c ∈ l, p c = false) : l.dropWhile p = l := by
  cases l with
  | nil => rfl
  | cons c rest =>
    rw [List.dropWhile_cons,
      if_neg (by rw [h c (List.mem_cons_self _ _)]; exact Bool.false_ne_true)]

theorem trim_eq_self_of_no_ws (l : Str) (h : ∀ c ∈ l, jsWs c = false) :
    trim l = l := by
  unfold trim
  rw [dropWhile_eq_self_of_none _ _ h,
    dropWhile_eq_self_of_none _ _ (fun c hc => h c (List.mem_reverse.mp hc)),
    List.reverse_reverse]

theorem trim_map_toLower (s : Str) :
    trim (s.map Char.toLower) = (trim s).map Char.toLower := by
  have hpf : (jsWs ∘ Char.toLower) = jsWs := funext jsWs_toLower
  unfold trim
  rw [List.dropWhile_map, hpf, ← List.map_reverse, List.dropWhile_map, hpf,
    ← List.map_reverse]

theorem allowed_not_ws (c : Char)
    (h : (('a' ≤ c && c ≤ 'z') || ('0' ≤ c && c ≤ '9') || c = '-' || c = '_') =
      true) : jsWs c = false := by
  cases hws : jsWs c with
  | false => rfl
  | true =>
    exfalso
    unfold jsWs at hws
    simp only [Bool.or_eq_true, decide_eq_true_eq] at hws
    rcases hws with ((((rfl | rfl) | rfl) | rfl) | rfl) | rfl <;>
      exact absurd h (by decide)

theorem normalizeSource_no_ws (s : Str) :
    ∀ c ∈ normalizeSource s, jsWs c = false := by
  intro c hc
  unfold normalizeSource at hc
  rcases List.mem_map.mp hc with ⟨a, _, rfl⟩
  by_cases ha : (('a' ≤ a && a ≤ 'z') || ('0' ≤ a && a ≤ '9') || a = '-' ||
      a = '_') = true
  · rw [if_pos ha]
    exact allowed_not_ws a ha
  · rw [if_neg ha]
    decide

theorem normalizeSource_parts (src : Str) (h : trim src ≠ []) :
    normalizeSource (src.map Char.toLower) ≠ [] ∧
    trim (normalizeSource (src.map Char.toLower)) ≠ [] := by
  have hlen : (normalizeSource (src.map Char.toLower)).length =
      (trim src).length := by
    unfold normalizeSource
    rw [List.length_map, List.length_map, trim_map_toLower, List.length_map]
  have hne : normalizeSource (src.map Char.toLower) ≠ [] := by
    intro e
    rw [e] at hlen
    exact h (List.length_eq_zero.mp hlen.symm)
  exact ⟨hne, by rw [trim_eq_self_of_no_ws _ (normalizeSource_no_ws _)]; exact hne⟩

theorem collapseWs_nil : collapseWs [] = [] := by
  rw [collapseWs]

theorem collapseWs_eq_self (l : Str) (h : ∀ c ∈ l, jsWs c = false) :
    collapseWs l = l := by
  induction l with
  | nil => exact collapseWs_nil
  | cons c rest ih =>
    rw [collapseWs,
      if_neg (by rw [h c (List.mem_cons_self _ _)]; exact Bool.false_ne_true),
      ih fun a ha => h a (List.mem_cons_of_mem _ ha)]

theorem preprocessLog_filtered (pp : LogPreprocessor) (log : RawLog)
    (hact : pp.isActive = true) (hfil : applyFilters pp.filters log = false) :
    preprocessLog pp log =
      (none,
       { pp with stats :=
           { pp.stats with filteredLogs := pp.stats.filteredLogs + 1 } },
       [PreEvent.logFiltered log]) := by
  unfold preprocessLog
  rw [hact, hfil]
  rfl

theorem preprocessLog_success (pp : LogPreprocessor) (log : RawLog)
    (n0 : Int) (s0 : PreprocessingStats)
    (hact : pp.isActive = true) (hfil : applyFilters pp.filters log = true)
    (htr : pp.transformations = defaultTransformations)
    (hnow : pp.now = n0) (hstats : pp.stats = s0) :
    preprocessLog pp log =
      (some { extractFeatures (enrichMetadata (normalizeFormat
          { log with
            message := collapseWs (trim (cleanMsg log.message)),
            source := log.source.map Char.toLower,
            metadata := log.metadata.map sanitizeMetadata }) n0) with
          isValid := validateLog (extractFeatures (enrichMetadata (normalizeFormat
          { log with
            message := collapseWs (trim (cleanMsg log.message)),
            source := log.source.map Char.toLower,
            metadata := log.metadata.map sanitizeMetadata }) n0)) },
       { pp with stats :=
         { updateAverageProcessingTime
             (if validateLog (extractFeatures (enrichMetadata (normalizeFormat
                  { log with
                    message := collapseWs (trim (cleanMsg log.message)),
                    source := log.source.map Char.toLower,
                    metadata := log.metadata.map sanitizeMetadata }) n0)) = true
              then { s0 with
                     transformedLogs := s0.transformedLogs + 1 + 1 + 1,
                     totalProcessed := s0.totalProcessed + 1,
                     validLogs := s0.validLogs + 1 }
              else { s0 with
                     transformedLogs := s0.transformedLogs + 1 + 1 + 1,
                     totalProcessed := s0.totalProcessed + 1,
                     invalidLogs := s0.invalidLogs + 1 }) 0 with
           lastProcessingTime := n0 } },
       [PreEvent.logProcessed
         { extractFeatures (enrichMetadata (normalizeFormat
            { log with
              message := collapseWs (trim (cleanMsg log.message)),
              source := log.source.map Char.toLower,
              metadata := log.metadata.map sanitizeMetadata }) n0) with
            isValid := validateLog (extractFeatures (enrichMetadata (normalizeFormat
            { log with
              message := collapseWs (trim (cleanMsg log.message)),
              source := log.source.map Char.toLower,
              metadata := log.metadata.map sanitizeMetadata }) n0)) }]) := by
  unfold preprocessLog
  rw [hact, hfil, htr, hnow, hstats]
  rfl

theorem validateLog_of_message_nil (q : ProcessedLog) (h : q.message = []) :
    validateLog q = false := by
  unfold validateLog
  rw [if_pos (Or.inl h)]

theorem pipeline_message (r : RawLog) (n : Int) :
    (extractFeatures (enrichMetadata (normalizeFormat r) n)).message =
      r.message := rfl

theorem pipeline_source (r : RawLog) (n : Int) :
    (extractFeatures (enrichMetadata (normalizeFormat r) n)).source =
      normalizeSource r.source := rfl

theorem pipeline_logLevel (r : RawLog) (n : Int) :
    (extractFeatures (enrichMetadata (normalizeFormat r) n)).logLevel =
      r.logLevel.map Char.toUpper := rfl

theorem pipeline_timestamp (r : RawLog) (n : Int) :
    (extractFeatures (enrichMetadata (normalizeFormat r) n)).timestamp =
      r.timestamp := rfl

theorem preprocessLog_filtered_any (r : RawLog) (pp : LogPreprocessor)
    (ha : pp.isActive = true) (hf : applyFilters pp.filters r = false) :
    preprocessLog pp r =
      (none,
       { pp with stats :=
           { pp.stats with filteredLogs := pp.stats.filteredLogs + 1 } },
       [PreEvent.logFiltered r]) :=
  preprocessLog_filtered pp r ha hf

theorem preprocessLog_success_any (r : RawLog) (n0 : Int) (pp : LogPreprocessor)
    (ha : pp.isActive = true) (hf : applyFilters pp.filters r = true)
    (ht : pp.transformations = defaultTransformations) (hn : pp.now = n0) :
    preprocessLog pp r =
      (some { extractFeatures (enrichMetadata (normalizeFormat
          { r with
            message := collapseWs (trim (cleanMsg r.message)),
            source := r.source.map Char.toLower,
            metadata := r.metadata.map sanitizeMetadata }) n0) with
          isValid := validateLog (extractFeatures (enrichMetadata (normalizeFormat
          { r with
            message := collapseWs (trim (cleanMsg r.message)),
            source := r.source.map Char.toLower,
            metadata := r.metadata.map sanitizeMetadata }) n0)) },
       { pp with stats :=
         { updateAverageProcessingTime
             (if validateLog (extractFeatures (enrichMetadata (normalizeFormat
                  { r with
                    message := collapseWs (trim (cleanMsg r.message)),
                    source := r.source.map Char.toLower,
                    metadata := r.metadata.map sanitizeMetadata }) n0)) = true
              then { pp.stats with
                     transformedLogs := pp.stats.transformedLogs + 1 + 1 + 1,
                     totalProcessed := pp.stats.totalProcessed + 1,
                     validLogs := pp.stats.validLogs + 1 }
              else { pp.stats with
                     transformedLogs := pp.stats.transformedLogs + 1 + 1 + 1,
                     totalProcessed := pp.stats.totalProcessed + 1,
                     invalidLogs := pp.stats.invalidLogs + 1 }) 0 with
           lastProcessingTime := n0 } },
       [PreEvent.logProcessed
         { extractFeatures (enrichMetadata (normalizeFormat
            { r with
              message := collapseWs (trim (cleanMsg r.message)),
              source := r.source.map Char.toLower,
              metadata := r.metadata.map sanitizeMetadata }) n0) with
            isValid := validateLog (extractFeatures (enrichMetadata (normalizeFormat
            { r with
              message := collapseWs (trim (cleanMsg r.message)),
              source := r.source.map Char.toLower,
              metadata := r.metadata.map sanitizeMetadata }) n0)) }]) :=
  preprocessLog_success pp r n0 pp.stats ha hf ht hn rfl

theorem batchPreprocessAux_cons (pp : LogPreprocessor) (log : RawLog)
    (rest : List RawLog) :
    batchPreprocessAux pp (log :: rest) =
      ((match (preprocessLog pp log).1 with
        | some p => p :: (batchPreprocessAux (preprocessLog pp log).2.1 rest).1
        | none => (batchPreprocessAux (preprocessLog pp log).2.1 rest).1),
       (batchPreprocessAux (preprocessLog pp log).2.1 rest).2.1,
       (preprocessLog pp log).2.2 ++
         (batchPreprocessAux (preprocessLog pp log).2.1 rest).2.2) := rfl

/-- C1 (amended): for a fresh-transformation preprocessor with any filter
registry and starting counters, a batch of three records in which the
first is vetoed by the filters, the second passes them with an empty
message, and the third passes them and is well-formed (non-blank source,
recognized level after uppercasing, parseable timestamp, message already
clean and whitespace-normalized with length in `[3,10000]`) yields exactly
TWO processed records — the empty-message one returned with
`isValid = false`, the well-formed one with `isValid = true` — and
`filteredLogs`, `invalidLogs` and `validLogs` each grow by one. -/
theorem batchPreprocess_three_records
    (fs : List Filter) (s : PreprocessingStats) (n : Int) (r1 r2 r3 : RawLog)
    (h1 : applyFilters fs r1 = false)
    (h2f : applyFilters fs r2 = true) (h2m : r2.message = [])
    (h3f : applyFilters fs r3 = true)
    (h3m : cleanMsg r3.message = r3.message)
    (h3t : trim r3.message = r3.message)
    (h3c : collapseWs r3.message = r3.message)
    (h3len1 : 3 ≤ r3.message.length) (h3len2 : r3.message.length ≤ 10000)
    (h3src : trim r3.source ≠ [])
    (h3lvl : r3.logLevel.map Char.toUpper ∈ validLevels)
    (h3ts : r3.timestamp ≠ none) :
    ∃ (out : List ProcessedLog) (pp2 : LogPreprocessor) (evs : List PreEvent),
      batchPreprocess
        { filters := fs, transformations := defaultTransformations,
          stats := s, isActive := true, now := n } [r1, r2, r3] =
        (out, pp2, evs) ∧
      out.length = 2 ∧
      out.map (fun p => p.isValid) = [false, true] ∧
      pp2.stats.filteredLogs = s.filteredLogs + 1 ∧
      pp2.stats.invalidLogs = s.invalidLogs + 1 ∧
      pp2.stats.validLogs = s.validLogs + 1 := by
  have hv2 : validateLog (extractFeatures (enrichMetadata (normalizeFormat
      { r2 with
        message := collapseWs (trim (cleanMsg r2.message)),
        source := r2.source.map Char.toLower,
        metadata := r2.metadata.map sanitizeMetadata }) n)) = false := by
    apply validateLog_of_message_nil
    show collapseWs (trim (cleanMsg r2.message)) = []
    rw [h2m, cleanMsg_nil, show trim ([] : Str) = [] from rfl, collapseWs_nil]
  have e1 : preprocessLog
      { filters := fs, transformations := defaultTransformations,
        stats := s, isActive := true, now := n } r1 =
      (none,
       { filters := fs, transformations := defaultTransformations,
         stats := { s with filteredLogs := s.filteredLogs + 1 },
         isActive := true, now := n },
       [PreEvent.logFiltered r1]) :=
    preprocessLog_filtered _ r1 rfl h1
  have e2 := preprocessLog_success
    { filters := fs, transformations := defaultTransformations,
      stats := { s with filteredLogs := s.filteredLogs + 1 },
      isActive := true, now := n } r2 n
    { s with filteredLogs := s.filteredLogs + 1 } rfl h2f rfl rfl rfl
  rw [hv2] at e2
  simp only [Bool.false_eq_true, if_false] at e2
  have hv3 : validateLog (extractFeatures (enrichMetadata (normalizeFormat
      { r3 with
        message := collapseWs (trim (cleanMsg r3.message)),
        source := r3.source.map Char.toLower,
        metadata := r3.metadata.map sanitizeMetadata }) n)) = true := by
    set q := extractFeatures (enrichMetadata (normalizeFormat
      { r3 with
        message := collapseWs (trim (cleanMsg r3.message)),
        source := r3.source.map Char.toLower,
        metadata := r3.metadata.map sanitizeMetadata }) n) with hq
    have hmsg : q.message = r3.message := by
      rw [hq, pipeline_message]
      show collapseWs (trim (cleanMsg r3.message)) = r3.message
      rw [h3m, h3t, h3c]
    have hsrc : q.source = normalizeSource (r3.source.map Char.toLower) := by
      rw [hq, pipeline_source]
    have hlvl : q.logLevel = r3.logLevel.map Char.toUpper := by
      rw [hq, pipeline_logLevel]
    have hts : q.timestamp = r3.timestamp := by
      rw [hq, pipeline_timestamp]
    cases hb : validateLog q with
    | true => rfl
    | false =>
      exfalso
      have hparts := normalizeSource_parts r3.source h3src
      rcases (validateLog_false_char q).mp hb with h | h | h | h | h | h
      · rw [hmsg, h3t] at h
        rw [h] at h3len1
        simp at h3len1
      · rw [hsrc] at h
        exact hparts.2 h
      · rw [hts] at h
        exact h3ts h
      · rw [hlvl] at h
        exact h h3lvl
      · rw [hmsg] at h
        omega
      · rw [hmsg] at h
        omega
  have e3 := preprocessLog_success_any r3 n
  simp only [hv3] at e3
  refine ⟨_, _, _, rfl, ?_, ?_, ?_, ?_, ?_⟩ <;>
    · simp only [batchPreprocess, batchPreprocessAux, e1, e2, e3, h3f]
      rfl

/-- C1 counterexample: the claim as stated fails on the code.  For the
concrete batch of one exclude-vetoed record, one empty-message record and
one well-formed record, `batchPreprocess` returns two processed records,
not one: the empty-message record is returned flagged `isValid = false`
instead of being dropped. -/
theorem batchPreprocess_single_output_false :
    (batchPreprocess ppC1 [rVetoed, rEmpty, rGood]).1.length = 2 ∧
    (batchPreprocess ppC1 [rVetoed, rEmpty, rGood]).1.length ≠ 1 := by
  have hfV : applyFilters [exclDebugSrc] rVetoed = false := by decide
  have hfE : applyFilters [exclDebugSrc] rEmpty = true := by decide
  have hfG : applyFilters [exclDebugSrc] rGood = true := by decide
  have f1 := preprocessLog_filtered_any rVetoed
  have e2 := preprocessLog_success_any rEmpty 0
  have e3 := preprocessLog_success_any rGood 0
  have hlen : (batchPreprocess ppC1 [rVetoed, rEmpty, rGood]).1.length = 2 := by
    simp only [ppC1, newPreprocessor, batchPreprocess, batchPreprocessAux,
      f1, e2, e3, hfV, hfE, hfG]
    rfl
  exact ⟨hlen, by rw [hlen]; decide⟩

/-- Witness for the amended C1 at the concrete three-record scenario with
fresh statistics. -/
theorem batchPreprocess_three_records_witness :
    ∃ (out : List ProcessedLog) (pp2 : LogPreprocessor) (evs : List PreEvent),
      batchPreprocess
        { filters := [exclDebugSrc], transformations := defaultTransformations,
          stats := initialStats, isActive := true, now := 0 }
        [rVetoed, rEmpty, rGood] = (out, pp2, evs) ∧
      out.length = 2 ∧
      out.map (fun p => p.isValid) = [false, true] ∧
      pp2.stats.filteredLogs = initialStats.filteredLogs + 1 ∧
      pp2.stats.invalidLogs = initialStats.invalidLogs + 1 ∧
      pp2.stats.validLogs = initialStats.validLogs + 1 :=
  batchPreprocess_three_records [exclDebugSrc] initialStats 0 rVetoed rEmpty rGood
    (by decide) (by decide) rfl (by decide)
    (cleanMsg_eq_self (str "hello") (by decide))
    (by decide)
    (collapseWs_eq_self (str "hello") (by decide))
    (by decide) (by decide) (by decide) (by decide) (by decide)

/-- C6: `preprocessLog` never lets an internal fault cross its boundary:
every call returns either a processed record or no record, and when a
pipeline stage raises — modelled by a transformation operation returning
`none` — the fault is swallowed: no record is returned, the
invalid-counter is incremented over the statistics accumulated so far,
and a `processingError` notification carrying the offending record is
emitted. -/
theorem preprocessLog_error_handling (pp : LogPreprocessor) (log : RawLog) :
    ((preprocessLog pp log).1 = none ∨ ∃ p, (preprocessLog pp log).1 = some p) ∧
    (pp.isActive = true →
     applyFilters pp.filters log = true →
     (applyTransformations pp.stats pp.transformations (cleanData log)).2 = none →
     preprocessLog pp log =
       (none,
        { pp with stats :=
          { (applyTransformations pp.stats pp.transformations (cleanData log)).1 with
            invalidLogs :=
              (applyTransformations pp.stats pp.transformations
                (cleanData log)).1.invalidLogs + 1 } },
        [PreEvent.processingError log])) := by
  constructor
  · cases h : (preprocessLog pp log).1 with
    | none => exact Or.inl rfl
    | some p => exact Or.inr ⟨p, rfl⟩
  · intro hact hfil herr
    unfold preprocessLog
    rw [hact, hfil]
    simp only []
    rcases happ : applyTransformations pp.stats pp.transformations (cleanData log)
      with ⟨s1, o⟩
    rw [happ] at herr
    simp only [] at herr
    subst herr
    rfl

/-- Witness for C6: a preprocessor holding one throwing transformation,
applied to a well-formed record. -/
theorem preprocessLog_error_handling_witness :
    (preprocessLog ppThrowing rGood).1 = none ∧
    (preprocessLog ppThrowing rGood).2.1.stats.invalidLogs = 1 ∧
    (preprocessLog ppThrowing rGood).2.2 = [PreEvent.processingError rGood] := by
  have h := (preprocessLog_error_handling ppThrowing rGood).2 rfl rfl rfl
  refine ⟨by rw [h], ?_, by rw [h]⟩
  rw [h]
  rfl

theorem runCollector_join_sublist (ops : List CollOp) :
    ∀ st : LogCollector,
      List.Sublist
        ((runCollector st ops).1.flatten ++ (runCollector st ops).2.collectedLogs)
        (st.collectedLogs ++ (appendedRecords ops).flatten) := by
  induction ops with
  | nil =>
    intro st
    simp [runCollector, appendedRecords]
  | cons op rest ih =>
    intro st
    cases op with
    | fetch b =>
      have h2 : List.Sublist (collectFromSource st b).collectedLogs
          (st.collectedLogs ++ b.filter validateLogFormat) := by
        rw [(collectFromSource_spec st b).2]
        exact List.drop_sublist _ _
      refine (ih (collectFromSource st b)).trans ?_
      show List.Sublist
        ((collectFromSource st b).collectedLogs ++ (appendedRecords rest).flatten)
        (st.collectedLogs ++ (b.filter validateLogFormat :: appendedRecords rest).flatten)
      rw [List.flatten_cons, ← List.append_assoc]
      exact h2.append (List.Sublist.refl _)
    | drain =>
      have h1 := ih { st with collectedLogs := [] }
      simp only [List.nil_append] at h1
      show List.Sublist
        ((st.collectedLogs :: (runCollector { st with collectedLogs := [] } rest).1).flatten ++
          (runCollector { st with collectedLogs := [] } rest).2.collectedLogs)
        (st.collectedLogs ++ (appendedRecords rest).flatten)
      rw [List.flatten_cons, List.append_assoc]
      exact (List.Sublist.refl st.collectedLogs).append h1

/-- C5: `collectLogs` returns exactly the buffer contents in order and
resets the buffer to empty; consequently, over any run of fetch ticks and
drains in which the appended records are pairwise distinct, no record
appears in the result of two different drains. -/
theorem collectLogs_drains (st : LogCollector) :
    ((collectLogs st).1 = st.collectedLogs ∧
     (collectLogs st).2.collectedLogs = []) ∧
    (∀ ops : List CollOp,
      (st.collectedLogs ++ (appendedRecords ops).flatten).Nodup →
      ∀ i j, i ≠ j → ∀ (hi : i < (runCollector st ops).1.length)
        (hj : j < (runCollector st ops).1.length) (r : Log),
        r ∈ (runCollector st ops).1.get ⟨i, hi⟩ →
        r ∉ (runCollector st ops).1.get ⟨j, hj⟩) := by
  refine ⟨⟨rfl, rfl⟩, ?_⟩
  intro ops hnd i j hij hi hj r hri hrj
  have hsub : List.Sublist (runCollector st ops).1.flatten
      (st.collectedLogs ++ (appendedRecords ops).flatten) :=
    (List.sublist_append_left _ _).trans (runCollector_join_sublist ops st)
  have hjoin : (runCollector st ops).1.flatten.Nodup := hnd.sublist hsub
  have hpair := (List.nodup_flatten.mp hjoin).2
  have hget := List.pairwise_iff_get.mp hpair
  rcases Nat.lt_or_ge i j with hlt | hge
  · exact hget ⟨i, hi⟩ ⟨j, hj⟩ hlt hri hrj
  · have hlt : j < i := Nat.lt_of_le_of_ne hge (fun e => hij e.symm)
    exact (hget ⟨j, hj⟩ ⟨i, hi⟩ hlt).symm hri hrj

/-- Witness for C5: in a concrete run with two drains, the record drained
first does not appear in the second drain. -/
theorem collectLogs_drains_witness :
    clog "a" ∉ (runCollector newCollector opsW).1.get ⟨1, by decide⟩ := by
  exact (collectLogs_drains newCollector).2 opsW (by decide) 0 1 (by decide)
    (by decide) (by decide) (clog "a") (by decide)

end LogPipeline
